import Mathlib

/-!
Verification of the carguino build tooling against its specification.

The Rust sources are shallowly embedded: strings are lists of characters,
`BTreeMap<String, String>` is an association list ordered by key, regular
expressions of the source are hand-compiled to recursive matchers that follow
the leftmost-first (lazy/greedy) semantics of the `regex` crate, filesystem
queries become explicit boolean oracles passed as arguments, and code that can
panic returns an explicit outcome value.
-/

namespace Carguino

/-- Strings of the embedding: lists of characters. -/
abbrev Str := List Char

/-- `\S` of the `regex` crate: a non-whitespace character. -/
def isNonWS (c : Char) : Bool := !c.isWhitespace

/-- A `BTreeMap<String, String>`: an association list of key/value pairs,
kept ordered by key by `insertMap`. -/
abbrev PrefMap := List (Str × Str)

/-- Lexicographic order on embedded strings, mirroring `Ord` on Rust strings. -/
def strLt : Str → Str → Bool
  | [], [] => false
  | [], _ :: _ => true
  | _ :: _, [] => false
  | a :: s, b :: t => if a = b then strLt s t else decide (a < b)

/-- `BTreeMap::insert`: replace the value of an existing key, otherwise insert
the pair at its ordered position. -/
def insertMap : PrefMap → Str → Str → PrefMap
  | [], k, v => [(k, v)]
  | (k0, v0) :: t, k, v =>
    if k = k0 then (k, v) :: t
    else if strLt k k0 then (k, v) :: (k0, v0) :: t
    else (k0, v0) :: insertMap t k v

/-- `BTreeMap::get`: the value of the first pair with the given key. -/
def lookupMap : PrefMap → Str → Option Str
  | [], _ => none
  | (k0, v0) :: t, k => if k0 = k then some v0 else lookupMap t k

theorem lookupMap_insertMap (m : PrefMap) (k v k' : Str) :
    lookupMap (insertMap m k v) k' = if k = k' then some v else lookupMap m k' := by
  induction m with
  | nil =>
    by_cases h : k = k' <;> simp [insertMap, lookupMap, h]
  | cons p t ih =>
    obtain ⟨k0, v0⟩ := p
    by_cases h0 : k = k0
    · subst h0
      by_cases h : k = k' <;> simp [insertMap, lookupMap, h]
    · by_cases hlt : strLt k k0 = true <;> by_cases h : k = k' <;>
        by_cases h0' : k0 = k' <;>
        simp_all [insertMap, lookupMap]

/-! ### The preference-expansion engine (`Preferences::expanded`, prefs.rs)

One substitution round applies the regex `\{(\S+?)\}` to every value,
replacing each match by the current value of the captured identifier (or by
the matched text itself when the identifier is absent), and then collapses
`{{` to `{` and `}}` to `}`.  The round is iterated at most 10 times,
stopping early when a round changes nothing. -/

/-- The lazy `\S+?` body of `\{(\S+?)\}` after the opening brace, having
already consumed at least one character (`acc` reversed): stop at the first
closing brace, otherwise extend through non-whitespace. -/
def matchAtAux : Str → Str → Option (Str × Str)
  | acc, '}' :: r => some (acc.reverse, r)
  | acc, c :: r => if isNonWS c then matchAtAux (c :: acc) r else none
  | _, [] => none

/-- Match `(\S+?)\}` directly after an opening brace: at least one
non-whitespace character, then up to the first closing brace. -/
def matchAt : Str → Option (Str × Str)
  | [] => none
  | c :: r => if isNonWS c then matchAtAux [c] r else none

/-- `Regex::replace_all` for `\{(\S+?)\}`: scan left to right; at each
opening brace try to match, replacing the match by the captured key's value
(or the full matched text when the key is absent); fuel bounds the scan. -/
def rrAux (m : PrefMap) : Nat → Str → Str
  | 0, s => s
  | _ + 1, [] => []
  | fuel + 1, '{' :: rest =>
    match matchAt rest with
    | some (content, rest') =>
        ((lookupMap m content).getD ('{' :: (content ++ ['}']))) ++ rrAux m fuel rest'
    | none => '{' :: rrAux m fuel rest
  | fuel + 1, c :: rest => c :: rrAux m fuel rest

/-- `REGEX.replace_all(value, ...)` of `Preferences::expanded`. -/
def replacePlaceholders (m : PrefMap) (s : Str) : Str := rrAux m s.length s

/-- `str::replace` of a doubled character by a single one (`"{{"→"{"` and
`"}}"→"}"`): non-overlapping replacement, left to right. -/
def unbrace (a : Char) : Str → Str
  | c1 :: c2 :: r =>
    if c1 = a ∧ c2 = a then a :: unbrace a r else c1 :: unbrace a (c2 :: r)
  | [c] => [c]
  | [] => []

/-- One value transformed by a substitution round: regex replacement, then
`.replace("{{", "{").replace("}}", "}")`. -/
def expandValue (m : PrefMap) (v : Str) : Str :=
  unbrace '}' (unbrace '{' (replacePlaceholders m v))

/-- One full substitution round over the map (the body of the `for` loop of
`Preferences::expanded`): every value is rewritten against the same
generation of the map. -/
def stepPrefs (m : PrefMap) : PrefMap :=
  m.map (fun kv => (kv.1, expandValue m kv.2))

/-- The bounded iteration of `Preferences::expanded`: run up to `fuel`
rounds, stopping early when a round changes nothing. -/
def expandLoop : Nat → PrefMap → PrefMap
  | 0, m => m
  | n + 1, m =>
    let m' := stepPrefs m
    if m' = m then m else expandLoop n m'

/-- `Preferences::expanded`: at most 10 substitution rounds. -/
def expandedPrefs (m : PrefMap) : PrefMap := expandLoop 10 m

/-! ### `Preferences::parse` (prefs.rs) -/

/-- Split a string at every newline character (the segments of
`str::lines` before the trailing-newline adjustment). -/
def splitNl : Str → List Str
  | [] => [[]]
  | '\n' :: r => [] :: splitNl r
  | c :: r =>
    match splitNl r with
    | h :: t => (c :: h) :: t
    | [] => [[c]]

/-- Remove one trailing carriage return, as `str::lines` does per line. -/
def stripCR (l : Str) : Str := if l.getLast? = some '\r' then l.dropLast else l

/-- `str::lines`: split at newlines, a final line ending being optional,
and strip one trailing carriage return from each line. -/
def rustLines (s : Str) : List Str :=
  if s = [] then []
  else (if s.getLast? = some '\n' then (splitNl s).dropLast else splitNl s).map stripCR

/-- `line.splitn(2, '=')` viewed through its two `next()` calls: the text
before the first `=` and the text after it, or nothing when the line has no
`=` (in which case the second `unwrap` of `Preferences::parse` panics). -/
def splitAtEq : Str → Option (Str × Str)
  | [] => none
  | c :: r =>
    if c = '=' then some ([], r)
    else
      match splitAtEq r with
      | some (k, v) => some (c :: k, v)
      | none => none

/-- `Preferences::parse`: insert a pair per line; `none` models the panic on
a line without `=`. -/
def parsePreferences (s : Str) : Option PrefMap :=
  (rustLines s).foldl
    (fun acc l =>
      match acc, splitAtEq l with
      | some m, some (k, v) => some (insertMap m k v)
      | _, _ => none)
    (some [])

theorem splitAtEq_isSome (l : Str) : (splitAtEq l).isSome = l.contains '=' := by
  induction l with
  | nil => simp [splitAtEq]
  | cons c r ih =>
    by_cases h : c = '='
    · subst h; simp [splitAtEq]
    · have : ('=' == c) = false := by
        simp [beq_iff_eq]; exact fun hc => h hc.symm
      cases hs : splitAtEq r <;>
        simp_all [splitAtEq, List.contains_cons]

theorem parseFold_none (ls : List Str) :
    ls.foldl
      (fun acc l =>
        match acc, splitAtEq l with
        | some m, some (k, v) => some (insertMap m k v)
        | _, _ => none)
      none = none := by
  induction ls with
  | nil => rfl
  | cons l t ih => simpa using ih

theorem parseFold_isSome (ls : List Str) (m0 : PrefMap) :
    (ls.foldl
      (fun acc l =>
        match acc, splitAtEq l with
        | some m, some (k, v) => some (insertMap m k v)
        | _, _ => none)
      (some m0)).isSome = true ↔ ∀ l ∈ ls, l.contains '=' = true := by
  induction ls generalizing m0 with
  | nil => simp
  | cons l t ih =>
    cases hs : splitAtEq l with
    | none =>
      have hc : l.contains '=' = false := by
        have := splitAtEq_isSome l; rw [hs] at this; simpa using this.symm
      have hm : '=' ∉ l := by simpa using hc
      simp [List.foldl_cons, hs, parseFold_none, hc]
      exact fun h => absurd h hm
    | some kv =>
      have hc : l.contains '=' = true := by
        have := splitAtEq_isSome l; rw [hs] at this; simpa using this.symm
      have hm : '=' ∈ l := by simpa using hc
      obtain ⟨k, v⟩ := kv
      simp [List.foldl_cons, hs, hc, ih]
      exact fun _ => hm

/-- The loop of `Preferences::expanded` runs at most `fuel` rounds, returns
an iterate of the round function, and stops before exhausting the bound only
at a fixpoint. -/
theorem expandLoop_spec (fuel : Nat) (m : PrefMap) :
    ∃ k, k ≤ fuel ∧ expandLoop fuel m = stepPrefs^[k] m ∧
      (k < fuel → stepPrefs (stepPrefs^[k] m) = stepPrefs^[k] m) := by
  induction fuel generalizing m with
  | zero => exact ⟨0, Nat.le_refl 0, rfl, fun h => absurd h (Nat.not_lt_zero 0)⟩
  | succ n ih =>
    by_cases h : stepPrefs m = m
    · exact ⟨0, Nat.zero_le _, by simp [expandLoop, h], fun _ => by simpa using h⟩
    · obtain ⟨k, hk, he, hfix⟩ := ih (stepPrefs m)
      refine ⟨k + 1, Nat.succ_le_succ hk, ?_, ?_⟩
      · rw [show expandLoop (n + 1) m = expandLoop n (stepPrefs m) by
          simp [expandLoop, h]]
        rw [he, Function.iterate_succ_apply]
      · intro hlt
        rw [Function.iterate_succ_apply]
        exact hfix (Nat.lt_of_succ_lt_succ hlt)

/-- C1: a preferences map that is a fixpoint of one substitution round is
returned unchanged by `Preferences::expanded`; in this embedding the
expanded view `expandedPrefs` is by construction a pure function of the
unexpanded map. -/
theorem expansion_idempotent (m : PrefMap) (h : stepPrefs m = m) :
    expandedPrefs m = m := by
  simp [expandedPrefs, expandLoop, h]

/-- Witness for C1 at the concrete fixpoint map `{"k": "v"}`. -/
theorem expansion_idempotent_witness :
    stepPrefs [(['k'], ['v'])] = [(['k'], ['v'])] ∧
      expandedPrefs [(['k'], ['v'])] = [(['k'], ['v'])] :=
  ⟨by decide, expansion_idempotent [(['k'], ['v'])] (by decide)⟩

/-- C2: `Preferences::expanded` always terminates within 10 substitution
rounds, stopping early exactly when a round is a fixpoint, and on the
mutually-referential map `{"a": "{b}", "b": "{a}"}` it returns the
deterministic value `{"a": "{a}", "b": "{b}"}` after two rounds. -/
theorem expansion_bounded_terminates :
    (∀ m : PrefMap, ∃ k, k ≤ 10 ∧ expandedPrefs m = stepPrefs^[k] m ∧
      (k < 10 → stepPrefs (stepPrefs^[k] m) = stepPrefs^[k] m)) ∧
    expandedPrefs [(['a'], ['{', 'b', '}']), (['b'], ['{', 'a', '}'])] =
      [(['a'], ['{', 'a', '}']), (['b'], ['{', 'b', '}'])] :=
  ⟨fun m => expandLoop_spec 10 m, by decide⟩

/-- Witness for C2: the bound instantiated at the mutually-referential map. -/
theorem expansion_bounded_terminates_witness :
    ∃ k, k ≤ 10 ∧
      expandedPrefs [(['a'], ['{', 'b', '}']), (['b'], ['{', 'a', '}'])] =
        stepPrefs^[k] [(['a'], ['{', 'b', '}']), (['b'], ['{', 'a', '}'])] ∧
      (k < 10 →
        stepPrefs (stepPrefs^[k] [(['a'], ['{', 'b', '}']), (['b'], ['{', 'a', '}'])]) =
          stepPrefs^[k] [(['a'], ['{', 'b', '}']), (['b'], ['{', 'a', '}'])]) :=
  expansion_bounded_terminates.1 [(['a'], ['{', 'b', '}']), (['b'], ['{', 'a', '}'])]

/-- C10: `Preferences::parse` panics (models as `none`) exactly when some
line of the input has no `=` character — in particular on an empty interior
line — and returns a map exactly when every line contains at least one `=`. -/
theorem preferences_parse_panics_iff :
    (∀ s : Str, parsePreferences s = none ↔ ∃ l ∈ rustLines s, l.contains '=' = false) ∧
    parsePreferences ['a', '=', '1', '\n', '\n', 'b', '=', '2'] = none ∧
    parsePreferences ['a', '=', '1', '\n', 'b', '=', '2'] =
      some [(['a'], ['1']), (['b'], ['2'])] := by
  refine ⟨fun s => ?_, by decide, by decide⟩
  have h := parseFold_isSome (rustLines s) []
  constructor
  · intro hn
    by_contra hno
    push_neg at hno
    have : ∀ l ∈ rustLines s, l.contains '=' = true := by
      intro l hl
      have h1 := hno l hl
      cases hcl : l.contains '=' with
      | false => exact absurd hcl h1
      | true => rfl
    have := h.2 this
    rw [parsePreferences] at hn
    rw [hn] at this
    simp at this
  · rintro ⟨l, hl, hc⟩
    cases hp : parsePreferences s with
    | none => rfl
    | some m =>
      have : (rustLines s).foldl
          (fun acc l =>
            match acc, splitAtEq l with
            | some m, some (k, v) => some (insertMap m k v)
            | _, _ => none)
          (some []) = some m := hp
      have hsome : ((rustLines s).foldl
          (fun acc l =>
            match acc, splitAtEq l with
            | some m, some (k, v) => some (insertMap m k v)
            | _, _ => none)
          (some [])).isSome = true := by rw [this]; rfl
      have := h.1 hsome l hl
      rw [this] at hc
      exact absurd hc (by simp)

/-! ### Recipe placeholder substitution (`Recipe::substitute`,
`RecipeParams::substitute`, config.rs) -/

/-- `RecipeParams`: the fixed set of substitution values; unset fields are
empty strings (`RecipeParams::default`). -/
structure RecipeParams where
  source_file : Str
  object_file : Str
  object_files : Str
  archive_file : Str
  includes : Str

/-- `RecipeParams::default()`: all fields empty. -/
def defaultRecipeParams : RecipeParams := ⟨[], [], [], [], []⟩

/-- `RecipeParams::substitute`: the five recognized placeholder names map to
their fields; any other name is returned as bare text. -/
def RecipeParams.substitute (p : RecipeParams) (w : Str) : Str :=
  if w = "source_file".toList then p.source_file
  else if w = "object_file".toList then p.object_file
  else if w = "object_files".toList then p.object_files
  else if w = "archive_file".toList then p.archive_file
  else if w = "includes".toList then p.includes
  else w

/-- `\w` of the `regex` crate: a word character. -/
def isWordChar (c : Char) : Bool := c.isAlphanum || c = '_'

/-- `Regex::replace_all` for `%(\w+)` inside `Recipe::substitute`: at each
`%` followed by at least one word character, the maximal word-character run
is the captured name, replaced via `RecipeParams::substitute`. -/
def substPatternAux (p : RecipeParams) : Nat → Str → Str
  | 0, s => s
  | _ + 1, [] => []
  | fuel + 1, c :: rest =>
    if c = '%' then
      if rest.takeWhile isWordChar = [] then '%' :: substPatternAux p fuel rest
      else
        p.substitute (rest.takeWhile isWordChar) ++
          substPatternAux p fuel (rest.dropWhile isWordChar)
    else c :: substPatternAux p fuel rest

/-- The placeholder-replacement phase of `Recipe::substitute`. -/
def substitutePattern (p : RecipeParams) (s : Str) : Str :=
  substPatternAux p s.length s

/-- C3: a `%name` token made of word characters is replaced through
`RecipeParams::substitute`; the five recognized names yield the parameter
fields, every other name yields the bare text with the sigil dropped, and no
input is rejected; in particular `%source_file -> %object_file` with
`source_file = a.c`, `object_file = a.o` yields `a.c -> a.o`, and
`%unknown_flag` yields `unknown_flag`. -/
theorem recipe_substitution :
    (∀ (p : RecipeParams) (w : Str), w ≠ [] → (∀ c ∈ w, isWordChar c = true) →
      substitutePattern p ('%' :: w) = p.substitute w) ∧
    (∀ p : RecipeParams,
      p.substitute "source_file".toList = p.source_file ∧
      p.substitute "object_file".toList = p.object_file ∧
      p.substitute "object_files".toList = p.object_files ∧
      p.substitute "archive_file".toList = p.archive_file ∧
      p.substitute "includes".toList = p.includes) ∧
    (∀ (p : RecipeParams) (w : Str),
      w ≠ "source_file".toList → w ≠ "object_file".toList →
      w ≠ "object_files".toList → w ≠ "archive_file".toList →
      w ≠ "includes".toList → p.substitute w = w) ∧
    substitutePattern ⟨"a.c".toList, "a.o".toList, [], [], []⟩
        "%source_file -> %object_file".toList = "a.c -> a.o".toList ∧
    substitutePattern defaultRecipeParams "%unknown_flag".toList =
      "unknown_flag".toList := by
  refine ⟨?_, ?_, ?_, by decide, by decide⟩
  · intro p w hne hw
    have ht : w.takeWhile isWordChar = w := List.takeWhile_eq_self_iff.mpr hw
    have hd : w.dropWhile isWordChar = [] := List.dropWhile_eq_nil_iff.mpr hw
    cases w with
    | nil => exact absurd rfl hne
    | cons a t =>
      simp [substitutePattern, substPatternAux, ht, hd]
  · intro p
    refine ⟨?_, ?_, ?_, ?_, ?_⟩ <;> simp [RecipeParams.substitute]
  · intro p w h1 h2 h3 h4 h5
    simp only [RecipeParams.substitute]
    rw [if_neg h1, if_neg h2, if_neg h3, if_neg h4, if_neg h5]

/-- Witness for C3: the token lemma and the fallback lemma applied at
concrete inputs. -/
theorem recipe_substitution_witness :
    substitutePattern defaultRecipeParams ('%' :: "includes".toList) =
        defaultRecipeParams.includes ∧
      RecipeParams.substitute defaultRecipeParams "zz".toList = "zz".toList :=
  ⟨recipe_substitution.1 defaultRecipeParams "includes".toList (by decide)
      (by decide),
    recipe_substitution.2.2.1 defaultRecipeParams "zz".toList (by decide)
      (by decide) (by decide) (by decide) (by decide)⟩

/-! ### Source and header classification (`is_source` and friends, config.rs)

Each classifier first requires `path.is_file()` — a filesystem query, passed
here as the boolean oracle `fs` — and then matches the path's extension
against a fixed table.  `Path::extension` is modelled on the textual path:
the part of the last `/`-separated component after its last `.`, absent when
there is no dot or when the component's only dot is its first character. -/

/-- The last `/`-separated component of a path (`Path::file_name`,
simplified: special trailing components such as `..` are not modelled). -/
def afterLastSlash (p : Str) : Str :=
  p.foldl (fun acc c => if c = '/' then [] else acc ++ [c]) []

/-- `Path::extension` on a file name. -/
def extensionOfName (f : Str) : Option Str :=
  if f.contains '.' = false then none
  else
    let af := (f.reverse.takeWhile (fun c => c ≠ '.')).reverse
    if f.length = af.length + 1 then none else some af

/-- `Path::extension` on a path. -/
def extensionOf (p : Str) : Option Str := extensionOfName (afterLastSlash p)

/-- The assembly-source extension table of `is_asm_source`. -/
def asmExts : List Str := ["s".toList, "S".toList, "sx".toList]

/-- The C-source extension table of `is_c_source`. -/
def cExts : List Str := ["c".toList, "i".toList]

/-- The C++-source extension table of `is_cpp_source`. -/
def cppExts : List Str :=
  ["cc".toList, "cp".toList, "cxx".toList, "cpp".toList, "CPP".toList,
    "c++".toList, "C".toList, "ii".toList]

/-- The C++-header extension table of `is_cpp_header`. -/
def cppHeaderExts : List Str :=
  ["hh".toList, "H".toList, "hp".toList, "hxx".toList, "hpp".toList,
    "HPP".toList, "h++".toList, "tcc".toList]

/-- `is_asm_source`: an existing file whose extension is in the table. -/
def is_asm_source (fs : Str → Bool) (p : Str) : Bool :=
  fs p && ((extensionOf p).map (fun e => decide (e ∈ asmExts))).getD false

/-- `is_c_source`. -/
def is_c_source (fs : Str → Bool) (p : Str) : Bool :=
  fs p && ((extensionOf p).map (fun e => decide (e ∈ cExts))).getD false

/-- `is_cpp_source`. -/
def is_cpp_source (fs : Str → Bool) (p : Str) : Bool :=
  fs p && ((extensionOf p).map (fun e => decide (e ∈ cppExts))).getD false

/-- `is_source`: any of the three source kinds. -/
def is_source (fs : Str → Bool) (p : Str) : Bool :=
  is_asm_source fs p || is_c_source fs p || is_cpp_source fs p

/-- `is_c_header`: an existing file with extension exactly `h`. -/
def is_c_header (fs : Str → Bool) (p : Str) : Bool :=
  fs p && ((extensionOf p).map (fun e => decide (e = "h".toList))).getD false

/-- `is_cpp_header`. -/
def is_cpp_header (fs : Str → Bool) (p : Str) : Bool :=
  fs p && ((extensionOf p).map (fun e => decide (e ∈ cppHeaderExts))).getD false

/-- A filesystem on which only `a.c` is an existing regular file. -/
def fsOnlyA (p : Str) : Bool := p == "a.c".toList

/-- C9 counterexample: classification is not purely a function of the
extension — `a.c` and `b.c` share the extension `c`, yet on a filesystem
where only `a.c` exists, `is_c_source` (hence `is_source`) classifies them
differently because of the `is_file` check. -/
theorem source_classification_counterexample :
    extensionOf "a.c".toList = extensionOf "b.c".toList ∧
      is_c_source fsOnlyA "a.c".toList = true ∧
      is_c_source fsOnlyA "b.c".toList = false ∧
      is_source fsOnlyA "a.c".toList = true ∧
      is_source fsOnlyA "b.c".toList = false := by
  refine ⟨by decide, by decide, by decide, by decide, by decide⟩

/-- C9 amended: classification requires the path to name an existing regular
file; for paths passing that check it is purely a function of the extension,
with exactly the case-sensitive tables of the claim. -/
theorem source_classification_by_extension :
    ∀ (fs : Str → Bool) (p : Str), fs p = true →
      (is_asm_source fs p = true ↔ ∃ e, extensionOf p = some e ∧ e ∈ asmExts) ∧
      (is_c_source fs p = true ↔ ∃ e, extensionOf p = some e ∧ e ∈ cExts) ∧
      (is_cpp_source fs p = true ↔ ∃ e, extensionOf p = some e ∧ e ∈ cppExts) ∧
      (is_c_header fs p = true ↔ extensionOf p = some "h".toList) ∧
      (is_cpp_header fs p = true ↔
        ∃ e, extensionOf p = some e ∧ e ∈ cppHeaderExts) ∧
      (is_source fs p = true ↔
        ∃ e, extensionOf p = some e ∧ (e ∈ asmExts ∨ e ∈ cExts ∨ e ∈ cppExts)) := by
  intro fs p hf
  cases he : extensionOf p with
  | none =>
    simp [is_asm_source, is_c_source, is_cpp_source, is_c_header,
      is_cpp_header, is_source, he, hf]
  | some e =>
    simp [is_asm_source, is_c_source, is_cpp_source, is_c_header,
      is_cpp_header, is_source, he, hf]
    exact or_assoc

/-- Witness for C9 amended, at the concrete file `a.c` on `fsOnlyA`. -/
theorem source_classification_by_extension_witness :
    (is_c_source fsOnlyA "a.c".toList = true ↔
        ∃ e, extensionOf "a.c".toList = some e ∧ e ∈ cExts) ∧
      is_c_source fsOnlyA "a.c".toList = true :=
  ⟨(source_classification_by_extension fsOnlyA "a.c".toList (by decide)).2.1,
    by decide⟩

/-! ### `parse_linker_options` (main.rs)

The token loop of `parse_linker_options`, scanning the argument list left to
right.  `Path::new(path).is_dir()` is the boolean oracle `isDir`; the two
`iter.next().unwrap()` calls can panic when an option expecting a following
value is the last token, modelled as `none`. -/

/-- `str::starts_with` (first argument: the pattern). -/
def strStarts : Str → Str → Bool
  | [], _ => true
  | _ :: _, [] => false
  | a :: ps, c :: cs => a == c && strStarts ps cs

/-- `arg.splitn(2, '=')` second element for a token known to contain `=`
(`splits[1]` of the source): everything after the first `=`. -/
def attachedValue (tok : Str) : Str := ((splitAtEq tok).map (fun kv => kv.2)).getD []

/-- `LinkerOptions` (main.rs). -/
structure LinkerOptions where
  command : Str
  script : Option Str
  specs : List Str
  library_search_path : List Str
  libraries : List Str
  platform_options : List Str
deriving DecidableEq

/-- The argument loop of `parse_linker_options`; `none` models the panic of
`iter.next().unwrap()` on a trailing option. -/
def parseLinkerArgs (isDir : Str → Bool) : List Str → LinkerOptions → Option LinkerOptions
  | [], st => some st
  | arg :: rest, st =>
    if arg = "--specs".toList ∨ arg = "-specs".toList then
      match rest with
      | v :: r => parseLinkerArgs isDir r { st with specs := st.specs ++ [v] }
      | [] => none
    else if strStarts "--specs=".toList arg ∨ strStarts "-specs=".toList arg then
      parseLinkerArgs isDir rest { st with specs := st.specs ++ [attachedValue arg] }
    else if arg = "-T".toList then
      match rest with
      | v :: r => parseLinkerArgs isDir r { st with script := some v }
      | [] => none
    else if strStarts "-T".toList arg then
      parseLinkerArgs isDir rest { st with script := some (arg.drop 2) }
    else if arg = "-L".toList then
      match rest with
      | v :: r =>
        parseLinkerArgs isDir r
          (if isDir v then
            { st with library_search_path := st.library_search_path ++ [v] }
          else st)
      | [] => none
    else if strStarts "-L".toList arg then
      parseLinkerArgs isDir rest
        (if isDir (arg.drop 2) then
          { st with library_search_path := st.library_search_path ++ [arg.drop 2] }
        else st)
    else if arg = "-l".toList then
      match rest with
      | v :: r => parseLinkerArgs isDir r { st with libraries := st.libraries ++ [v] }
      | [] => none
    else if strStarts "-l".toList arg then
      parseLinkerArgs isDir rest { st with libraries := st.libraries ++ [arg.drop 2] }
    else if strStarts "-m".toList arg then
      parseLinkerArgs isDir rest { st with platform_options := st.platform_options ++ [arg] }
    else parseLinkerArgs isDir rest st

theorem strStarts_self_append (p s : Str) : strStarts p (p ++ s) = true := by
  induction p with
  | nil => rfl
  | cons a t ih => simp [strStarts, ih]

/-- C8: one scanning step of `parse_linker_options` for every recognized
token shape — `--specs`/`-specs` with following or attached value appends to
specs; `-T` with following or attached value overwrites the script (so the
last occurrence wins); `-L` with following or attached value appends to the
search path only when the oracle says the path is a directory and drops it
silently otherwise; `-l` with following or attached value appends to
libraries; a token beginning with `-m` is appended verbatim to the platform
flags; and every other token is ignored.  The concrete run shows the last
`-T` winning. -/
theorem linker_options_scanning :
    (∀ (isDir : Str → Bool) (v : Str) (rest : List Str) (st : LinkerOptions),
      parseLinkerArgs isDir ("--specs".toList :: v :: rest) st =
          parseLinkerArgs isDir rest { st with specs := st.specs ++ [v] } ∧
        parseLinkerArgs isDir ("-specs".toList :: v :: rest) st =
          parseLinkerArgs isDir rest { st with specs := st.specs ++ [v] } ∧
        parseLinkerArgs isDir (("--specs=".toList ++ v) :: rest) st =
          parseLinkerArgs isDir rest { st with specs := st.specs ++ [v] } ∧
        parseLinkerArgs isDir (("-specs=".toList ++ v) :: rest) st =
          parseLinkerArgs isDir rest { st with specs := st.specs ++ [v] } ∧
        parseLinkerArgs isDir ("-T".toList :: v :: rest) st =
          parseLinkerArgs isDir rest { st with script := some v } ∧
        parseLinkerArgs isDir ("-L".toList :: v :: rest) st =
          parseLinkerArgs isDir rest
            (if isDir v then
              { st with library_search_path := st.library_search_path ++ [v] }
            else st) ∧
        parseLinkerArgs isDir ("-l".toList :: v :: rest) st =
          parseLinkerArgs isDir rest { st with libraries := st.libraries ++ [v] }) ∧
    (∀ (isDir : Str → Bool) (v : Str) (rest : List Str) (st : LinkerOptions),
      v ≠ [] →
      parseLinkerArgs isDir (("-T".toList ++ v) :: rest) st =
          parseLinkerArgs isDir rest { st with script := some v } ∧
        parseLinkerArgs isDir (("-L".toList ++ v) :: rest) st =
          parseLinkerArgs isDir rest
            (if isDir v then
              { st with library_search_path := st.library_search_path ++ [v] }
            else st) ∧
        parseLinkerArgs isDir (("-l".toList ++ v) :: rest) st =
          parseLinkerArgs isDir rest { st with libraries := st.libraries ++ [v] }) ∧
    (∀ (isDir : Str → Bool) (w : Str) (rest : List Str) (st : LinkerOptions),
      parseLinkerArgs isDir (("-m".toList ++ w) :: rest) st =
        parseLinkerArgs isDir rest
          { st with platform_options := st.platform_options ++ ["-m".toList ++ w] }) ∧
    (∀ (isDir : Str → Bool) (t : Str) (rest : List Str) (st : LinkerOptions),
      t ≠ "--specs".toList → t ≠ "-specs".toList →
      strStarts "--specs=".toList t = false → strStarts "-specs=".toList t = false →
      strStarts "-T".toList t = false → strStarts "-L".toList t = false →
      strStarts "-l".toList t = false → strStarts "-m".toList t = false →
      parseLinkerArgs isDir (t :: rest) st = parseLinkerArgs isDir rest st) ∧
    (∀ (isDir : Str → Bool) (st : LinkerOptions),
      parseLinkerArgs isDir [] st = some st) ∧
    parseLinkerArgs (fun _ => false) ["-Ta".toList, "-Tb".toList]
        ⟨"ld".toList, none, [], [], [], []⟩ =
      some ⟨"ld".toList, some ['b'], [], [], [], []⟩ := by
  refine ⟨?_, ?_, ?_, ?_, fun _ _ => rfl, by decide⟩
  · intro isDir v rest st
    refine ⟨?_, ?_, ?_, ?_, ?_, ?_, ?_⟩ <;>
      · rw [parseLinkerArgs.eq_def]
        simp [strStarts, attachedValue, splitAtEq]
  · intro isDir v rest st hv
    refine ⟨?_, ?_, ?_⟩ <;>
      cases v with
      | nil => exact absurd rfl hv
      | cons a w =>
        rw [parseLinkerArgs.eq_def]
        simp [strStarts]
  · intro isDir w rest st
    rw [parseLinkerArgs.eq_def]
    simp [strStarts]
  · intro isDir t rest st h1 h2 h3 h4 h5 h6 h7 h8
    have h9 : t ≠ "-T".toList := by
      intro h; rw [h] at h5; exact absurd h5 (by decide)
    have h10 : t ≠ "-L".toList := by
      intro h; rw [h] at h6; exact absurd h6 (by decide)
    have h11 : t ≠ "-l".toList := by
      intro h; rw [h] at h7; exact absurd h7 (by decide)
    rw [parseLinkerArgs.eq_def]
    simp at h1 h2 h3 h4 h5 h6 h7 h8 h9 h10 h11
    simp [h1, h2, h3, h4, h5, h6, h7, h8, h9, h10, h11]

/-- Witness for C8: the attached-value and ignored-token steps applied at
concrete tokens. -/
theorem linker_options_scanning_witness :
    parseLinkerArgs (fun _ => true) [("-T".toList ++ "x.ld".toList)]
        ⟨"ld".toList, none, [], [], [], []⟩ =
      parseLinkerArgs (fun _ => true) []
        ⟨"ld".toList, some "x.ld".toList, [], [], [], []⟩ ∧
    parseLinkerArgs (fun _ => true) ["foo".toList]
        ⟨"ld".toList, none, [], [], [], []⟩ =
      parseLinkerArgs (fun _ => true) [] ⟨"ld".toList, none, [], [], [], []⟩ :=
  ⟨(linker_options_scanning.2.1 (fun _ => true) "x.ld".toList []
      ⟨"ld".toList, none, [], [], [], []⟩ (by decide)).1,
    linker_options_scanning.2.2.2.1 (fun _ => true) "foo".toList []
      ⟨"ld".toList, none, [], [], [], []⟩ (by decide) (by decide) (by decide)
      (by decide) (by decide) (by decide) (by decide) (by decide)⟩

/-! ### Target-descriptor synthesis (`create_target_spec`, main.rs)

The base compiler's descriptor template is a JSON document; the fields that
`create_target_spec` touches are modelled as named fields, every other field
passing through unchanged in `otherFields`.  The embedding mirrors the
sequence of mutations applied when no cached descriptor exists. -/

/-- The modelled fields of the target-descriptor JSON document. -/
structure TargetSpec where
  isBuiltin : Bool
  linker : Str
  linkerIsGnu : Bool
  noDefaultLibraries : Bool
  cpu : Str
  preLinkArgs : List Str
  lateLinkArgs : List Str
  otherFields : List (Str × Str)
deriving DecidableEq

/-- The descriptor mutation of `create_target_spec`, in source order:
`is-builtin = false`, `linker = <command>`, `linker-is-gnu = true`,
`no-default-libraries = false`, `cpu = <cpu>`, then the pre-link and
late-link argument extensions. -/
def create_target_spec (base : TargetSpec) (lo : LinkerOptions) (cpu : Str) :
    TargetSpec :=
  let spec := { base with isBuiltin := false }
  let spec := { spec with linker := lo.command }
  let spec := { spec with linkerIsGnu := true }
  let spec := { spec with noDefaultLibraries := false }
  let spec := { spec with cpu := cpu }
  let pre := spec.preLinkArgs
  let pre := pre ++ lo.specs.map (fun s => "-specs=".toList ++ s)
  let pre := pre ++ lo.platform_options
  let pre := pre ++ (match lo.script with
    | some t => ["-T".toList ++ t]
    | none => [])
  let pre := pre ++ lo.library_search_path.map (fun d => "-L".toList ++ d)
  let spec := { spec with preLinkArgs := pre }
  let late := spec.lateLinkArgs ++ lo.libraries.map (fun l => "-l".toList ++ l)
  { spec with lateLinkArgs := late }

/-- A sample base descriptor whose template has default libraries disabled. -/
def baseSpec0 : TargetSpec :=
  ⟨true, "cc".toList, false, true, [], ["-x".toList], [], []⟩

/-- Sample linker options. -/
def linkerOptions0 : LinkerOptions :=
  ⟨"ld".toList, some "x.ld".toList, ["nano.specs".toList],
    ["libs".toList], ["m".toList], ["-mthumb".toList]⟩

/-- C7 counterexample: the synthesized descriptor does not disable implicit
default libraries — `create_target_spec` sets `no-default-libraries` to
`false` (default libraries stay enabled) even when the base template had
them disabled. -/
theorem create_target_spec_counterexample :
    baseSpec0.noDefaultLibraries = true ∧
      (create_target_spec baseSpec0 linkerOptions0 "cortex-m0".toList).noDefaultLibraries
        = false := by
  exact ⟨rfl, rfl⟩

/-- C7 amended: when no cached descriptor exists, the synthesized descriptor
is the base template with `is-builtin` cleared, the linker set to the linker
recipe's command, `linker-is-gnu` set, `no-default-libraries` set to `false`
(implicit default libraries left enabled), the CPU set, the pre-link
arguments extended in order by `-specs=<value>` for each specs token, each
platform flag verbatim, `-T<path>` for the script when present and
`-L<path>` for each search directory, and the late-link arguments extended
by `-l<name>` for each library; all other template fields are unchanged. -/
theorem create_target_spec_characterization :
    ∀ (base : TargetSpec) (lo : LinkerOptions) (cpu : Str),
      create_target_spec base lo cpu =
        ⟨false, lo.command, true, false, cpu,
          base.preLinkArgs ++ lo.specs.map (fun s => "-specs=".toList ++ s) ++
            lo.platform_options ++
            (match lo.script with
              | some t => ["-T".toList ++ t]
              | none => []) ++
            lo.library_search_path.map (fun d => "-L".toList ++ d),
          base.lateLinkArgs ++ lo.libraries.map (fun l => "-l".toList ++ l),
          base.otherFields⟩ := by
  intro base lo cpu
  rfl

/-! ### `Config::serialize` (config.rs), failure behavior

The failure-relevant prefix of `Config::serialize`: the five placeholder
`set` calls, then the required lookups on the expanded preferences.  The
four `build.*` keys are fetched with `map_or_else(|| Err(...), Ok)?` — an
error whose message quotes the missing key (the quoting apostrophes of the
original message are omitted here) — while `Recipe::from_prefs` ends in
`.unwrap()`, which panics on a missing `recipe.*.pattern` key.  The
subsequent subprocess probe and JSON encoding are outside the model. -/

/-- `str::to_lowercase` (ASCII-faithful). -/
def toLowerStr (s : Str) : Str := s.map Char.toLower

/-- The pure data extracted by `Config::serialize` before the subprocess
probe: identifiers, paths and the four recipe pattern strings. -/
structure ConfigData where
  core : Str
  board : Str
  core_path : Str
  variant_path : Str
  c_recipe : Str
  cpp_recipe : Str
  asm_recipe : Str
  ar_recipe : Str
deriving DecidableEq

/-- Outcome of the modelled prefix of `Config::serialize`: success, an
`Err` with its message, or a panic. -/
inductive SerOutcome where
  | ok : ConfigData → SerOutcome
  | err : Str → SerOutcome
  | panics : SerOutcome
deriving DecidableEq

/-- The five `prefs.set` calls at the top of `Config::serialize`. -/
def setPlaceholders (m : PrefMap) : PrefMap :=
  insertMap
    (insertMap
      (insertMap
        (insertMap (insertMap m "source_file".toList "%source_file".toList)
          "object_file".toList "%object_file".toList)
        "includes".toList "%includes".toList)
      "archive_file".toList "%archive_file".toList)
    "archive_file_path".toList "%archive_file".toList

/-- The failure-relevant prefix of `Config::serialize`, in source order. -/
def config_serialize (m : PrefMap) : SerOutcome :=
  let e := expandedPrefs (setPlaceholders m)
  match lookupMap e "build.core".toList with
  | none => .err "build.core missing from preferences".toList
  | some core =>
    match lookupMap e "build.board".toList with
    | none => .err "build.board missing from preferences".toList
    | some board =>
      match lookupMap e "build.core.path".toList with
      | none => .err "build.core.path missing from preferences".toList
      | some core_path =>
        match lookupMap e "build.variant.path".toList with
        | none => .err "build.variant.path missing from preferences".toList
        | some variant_path =>
          match lookupMap e "recipe.c.o.pattern".toList with
          | none => .panics
          | some rc =>
            match lookupMap e "recipe.cpp.o.pattern".toList with
            | none => .panics
            | some rcpp =>
              match lookupMap e "recipe.S.o.pattern".toList with
              | none => .panics
              | some rS =>
                match lookupMap e "recipe.ar.pattern".toList with
                | none => .panics
                | some rar =>
                  .ok ⟨core, toLowerStr board, core_path, variant_path,
                    rc, rcpp, rS, rar⟩

theorem lookupMap_mapValues (m : PrefMap) (f : Str → Str) (k : Str) :
    lookupMap (m.map (fun kv => (kv.1, f kv.2))) k = (lookupMap m k).map f := by
  induction m with
  | nil => rfl
  | cons p t ih =>
    obtain ⟨k0, v0⟩ := p
    by_cases h : k0 = k <;> simp [lookupMap, h, ih]

theorem lookupMap_stepPrefs_isSome (m : PrefMap) (k : Str) :
    (lookupMap (stepPrefs m) k).isSome = (lookupMap m k).isSome := by
  rw [stepPrefs, lookupMap_mapValues]
  cases lookupMap m k <;> rfl

theorem lookupMap_expandLoop_isSome (n : Nat) (m : PrefMap) (k : Str) :
    (lookupMap (expandLoop n m) k).isSome = (lookupMap m k).isSome := by
  induction n generalizing m with
  | zero => rfl
  | succ n ih =>
    by_cases h : stepPrefs m = m
    · simp [expandLoop, h]
    · rw [show expandLoop (n + 1) m = expandLoop n (stepPrefs m) by
        simp [expandLoop, h]]
      rw [ih, lookupMap_stepPrefs_isSome]

theorem lookupMap_expandedPrefs_isSome (m : PrefMap) (k : Str) :
    (lookupMap (expandedPrefs m) k).isSome = (lookupMap m k).isSome :=
  lookupMap_expandLoop_isSome 10 m k

theorem lookupMap_setPlaceholders (m : PrefMap) (k : Str)
    (h1 : k ≠ "source_file".toList) (h2 : k ≠ "object_file".toList)
    (h3 : k ≠ "includes".toList) (h4 : k ≠ "archive_file".toList)
    (h5 : k ≠ "archive_file_path".toList) :
    lookupMap (setPlaceholders m) k = lookupMap m k := by
  rw [setPlaceholders, lookupMap_insertMap, lookupMap_insertMap,
    lookupMap_insertMap, lookupMap_insertMap, lookupMap_insertMap,
    if_neg (fun h => h5 h.symm), if_neg (fun h => h4 h.symm),
    if_neg (fun h => h3 h.symm), if_neg (fun h => h2 h.symm),
    if_neg (fun h => h1 h.symm)]

theorem lookupMap_serialized (m : PrefMap) (k : Str)
    (h1 : k ≠ "source_file".toList) (h2 : k ≠ "object_file".toList)
    (h3 : k ≠ "includes".toList) (h4 : k ≠ "archive_file".toList)
    (h5 : k ≠ "archive_file_path".toList) :
    (lookupMap (expandedPrefs (setPlaceholders m)) k).isSome =
      (lookupMap m k).isSome := by
  rw [lookupMap_expandedPrefs_isSome, lookupMap_setPlaceholders m k h1 h2 h3 h4 h5]

/-- Preferences populated with the four `build.*` keys but no recipes. -/
def prefsNoRecipe : PrefMap :=
  [("build.board".toList, "Uno".toList), ("build.core".toList, "arduino".toList),
    ("build.core.path".toList, "c".toList),
    ("build.variant.path".toList, "v".toList)]

/-- C6 counterexample: with the four `build.*` keys present but
`recipe.c.o.pattern` absent, `Config::serialize` panics (the `unwrap` in
`Recipe::from_prefs`) instead of failing with an error naming the key. -/
theorem config_serialize_counterexample :
    lookupMap prefsNoRecipe "recipe.c.o.pattern".toList = none ∧
      config_serialize prefsNoRecipe = SerOutcome.panics := by
  exact ⟨by decide, by decide⟩

/-- C6 amended: a missing `build.core`, `build.board`, `build.core.path` or
`build.variant.path` (checked in that order) makes `Config::serialize` fail
with an error naming the key; a missing `recipe.{c.o,cpp.o,S.o,ar}.pattern`
key, with the four `build.*` keys present, makes it panic instead of
returning an error. -/
theorem config_serialize_missing_key :
    (∀ m : PrefMap, lookupMap m "build.core".toList = none →
      config_serialize m = .err "build.core missing from preferences".toList) ∧
    (∀ m : PrefMap, (lookupMap m "build.core".toList).isSome = true →
      lookupMap m "build.board".toList = none →
      config_serialize m = .err "build.board missing from preferences".toList) ∧
    (∀ m : PrefMap, (lookupMap m "build.core".toList).isSome = true →
      (lookupMap m "build.board".toList).isSome = true →
      lookupMap m "build.core.path".toList = none →
      config_serialize m = .err "build.core.path missing from preferences".toList) ∧
    (∀ m : PrefMap, (lookupMap m "build.core".toList).isSome = true →
      (lookupMap m "build.board".toList).isSome = true →
      (lookupMap m "build.core.path".toList).isSome = true →
      lookupMap m "build.variant.path".toList = none →
      config_serialize m =
        .err "build.variant.path missing from preferences".toList) ∧
    (∀ m : PrefMap, (lookupMap m "build.core".toList).isSome = true →
      (lookupMap m "build.board".toList).isSome = true →
      (lookupMap m "build.core.path".toList).isSome = true →
      (lookupMap m "build.variant.path".toList).isSome = true →
      (lookupMap m "recipe.c.o.pattern".toList = none ∨
        lookupMap m "recipe.cpp.o.pattern".toList = none ∨
        lookupMap m "recipe.S.o.pattern".toList = none ∨
        lookupMap m "recipe.ar.pattern".toList = none) →
      config_serialize m = SerOutcome.panics) := by
  have hnone : ∀ (m : PrefMap) (k : Str), k ≠ "source_file".toList →
      k ≠ "object_file".toList → k ≠ "includes".toList →
      k ≠ "archive_file".toList → k ≠ "archive_file_path".toList →
      lookupMap m k = none →
      lookupMap (expandedPrefs (setPlaceholders m)) k = none := by
    intro m k h1 h2 h3 h4 h5 hk
    have h := lookupMap_serialized m k h1 h2 h3 h4 h5
    rw [hk] at h
    cases hx : lookupMap (expandedPrefs (setPlaceholders m)) k with
    | none => rfl
    | some v => rw [hx] at h; simp at h
  have hsome : ∀ (m : PrefMap) (k : Str), k ≠ "source_file".toList →
      k ≠ "object_file".toList → k ≠ "includes".toList →
      k ≠ "archive_file".toList → k ≠ "archive_file_path".toList →
      (lookupMap m k).isSome = true →
      ∃ v, lookupMap (expandedPrefs (setPlaceholders m)) k = some v := by
    intro m k h1 h2 h3 h4 h5 hk
    have h := lookupMap_serialized m k h1 h2 h3 h4 h5
    rw [hk] at h
    exact Option.isSome_iff_exists.mp h
  refine ⟨?_, ?_, ?_, ?_, ?_⟩
  · intro m hm
    have he := hnone m "build.core".toList (by decide) (by decide) (by decide)
      (by decide) (by decide) hm
    simp only [config_serialize]
    rw [he]
  · intro m h1 hm
    obtain ⟨v1, hv1⟩ := hsome m "build.core".toList (by decide) (by decide)
      (by decide) (by decide) (by decide) h1
    have he := hnone m "build.board".toList (by decide) (by decide) (by decide)
      (by decide) (by decide) hm
    simp only [config_serialize]
    rw [hv1, he]
  · intro m h1 h2 hm
    obtain ⟨v1, hv1⟩ := hsome m "build.core".toList (by decide) (by decide)
      (by decide) (by decide) (by decide) h1
    obtain ⟨v2, hv2⟩ := hsome m "build.board".toList (by decide) (by decide)
      (by decide) (by decide) (by decide) h2
    have he := hnone m "build.core.path".toList (by decide) (by decide)
      (by decide) (by decide) (by decide) hm
    simp only [config_serialize]
    rw [hv1, hv2, he]
  · intro m h1 h2 h3 hm
    obtain ⟨v1, hv1⟩ := hsome m "build.core".toList (by decide) (by decide)
      (by decide) (by decide) (by decide) h1
    obtain ⟨v2, hv2⟩ := hsome m "build.board".toList (by decide) (by decide)
      (by decide) (by decide) (by decide) h2
    obtain ⟨v3, hv3⟩ := hsome m "build.core.path".toList (by decide) (by decide)
      (by decide) (by decide) (by decide) h3
    have he := hnone m "build.variant.path".toList (by decide) (by decide)
      (by decide) (by decide) (by decide) hm
    simp only [config_serialize]
    rw [hv1, hv2, hv3, he]
  · intro m h1 h2 h3 h4 hr
    obtain ⟨v1, hv1⟩ := hsome m "build.core".toList (by decide) (by decide)
      (by decide) (by decide) (by decide) h1
    obtain ⟨v2, hv2⟩ := hsome m "build.board".toList (by decide) (by decide)
      (by decide) (by decide) (by decide) h2
    obtain ⟨v3, hv3⟩ := hsome m "build.core.path".toList (by decide) (by decide)
      (by decide) (by decide) (by decide) h3
    obtain ⟨v4, hv4⟩ := hsome m "build.variant.path".toList (by decide)
      (by decide) (by decide) (by decide) (by decide) h4
    simp only [config_serialize]
    rw [hv1, hv2, hv3, hv4]
    cases hrc : lookupMap (expandedPrefs (setPlaceholders m))
        "recipe.c.o.pattern".toList with
    | none => rfl
    | some r1 =>
      cases hrcpp : lookupMap (expandedPrefs (setPlaceholders m))
          "recipe.cpp.o.pattern".toList with
      | none => rfl
      | some r2 =>
        cases hrS : lookupMap (expandedPrefs (setPlaceholders m))
            "recipe.S.o.pattern".toList with
        | none => rfl
        | some r3 =>
          cases hrar : lookupMap (expandedPrefs (setPlaceholders m))
              "recipe.ar.pattern".toList with
          | none => rfl
          | some r4 =>
            exfalso
            rcases hr with h | h | h | h
            · have := hnone m "recipe.c.o.pattern".toList (by decide)
                (by decide) (by decide) (by decide) (by decide) h
              rw [this] at hrc; exact Option.noConfusion hrc
            · have := hnone m "recipe.cpp.o.pattern".toList (by decide)
                (by decide) (by decide) (by decide) (by decide) h
              rw [this] at hrcpp; exact Option.noConfusion hrcpp
            · have := hnone m "recipe.S.o.pattern".toList (by decide)
                (by decide) (by decide) (by decide) (by decide) h
              rw [this] at hrS; exact Option.noConfusion hrS
            · have := hnone m "recipe.ar.pattern".toList (by decide)
                (by decide) (by decide) (by decide) (by decide) h
              rw [this] at hrar; exact Option.noConfusion hrar

/-- Witness for C6 amended: the empty preference map yields the
`build.core` error, and `prefsNoRecipe` panics. -/
theorem config_serialize_missing_key_witness :
    config_serialize [] = .err "build.core missing from preferences".toList ∧
      config_serialize prefsNoRecipe = SerOutcome.panics :=
  ⟨config_serialize_missing_key.1 [] (by decide),
    config_serialize_missing_key.2.2.2.2 prefsNoRecipe (by decide) (by decide)
      (by decide) (by decide) (Or.inl (by decide))⟩

/-! ### `BoardInfo::from_fqbn` and `BoardInfo`'s `Display` (board.rs)

The anchored regular expression
`^(\S+?):(\S+?):(\S+?)(?::((?:\S+?=\S+?)(?:,?:\S+?=\S+?)*))?$` is
hand-compiled to a backtracking matcher following the leftmost-first
priority order of the `regex` crate: each lazy `\S+?` first tries its
shortest extent and grows one character at a time when the continuation
fails (so it can absorb `:` characters); the optional parameter group is
greedy.  Only the span of capture group 4 matters to the caller, and that
span is forced to the end of the input, so the group-4 body is matched by a
decidable existential over decompositions. -/

/-- Does `u` fully match `\S+?=\S+?` — nonempty non-whitespace text with an
interior `=`? -/
def g4MatchP (u : Str) : Bool :=
  u.all isNonWS &&
    (List.range u.length).any (fun k =>
      decide (0 < k) && decide (k + 1 < u.length) && (u.getD k ' ' == '='))

/-- Does `r` fully match `(?:,?:\S+?=\S+?)*`? -/
def repMatch : Nat → Str → Bool
  | _, [] => true
  | 0, _ => false
  | fuel + 1, r =>
    match (match r with | ',' :: rr => rr | _ => r) with
    | ':' :: rr =>
      (List.range rr.length).any (fun k =>
        g4MatchP (rr.take (k + 1)) && repMatch fuel (rr.drop (k + 1)))
    | _ => false

/-- Does `t` fully match group 4, `(?:\S+?=\S+?)(?:,?:\S+?=\S+?)*`? -/
def g4Match (t : Str) : Bool :=
  (List.range t.length).any (fun k =>
    g4MatchP (t.take (k + 1)) && repMatch t.length (t.drop (k + 1)))

/-- The raw captures of the FQBN regex: vendor, arch, board, and group 4. -/
abbrev FqbnRaw := Str × Str × Str × Option Str

/-- After the board capture: the greedy optional group `(?::(G4))?` followed
by the end anchor — first try `:` plus a full group-4 match to the end,
then the empty alternative, which requires the end of input. -/
def optG4 (v a b : Str) (rest : Str) : Option FqbnRaw :=
  (match rest with
    | ':' :: t => if g4Match t then some (v, a, b, some t) else none
    | _ => none).orElse
    (fun _ => if rest.isEmpty then some (v, a, b, none) else none)

/-- The lazy board capture `(\S+?)`, holding at least `acc`: try the
continuation first, then grow by one non-whitespace character. -/
def parseBoard (v a : Str) (acc : Str) : Str → Option FqbnRaw
  | [] => optG4 v a acc []
  | c :: r =>
    (optG4 v a acc (c :: r)).orElse (fun _ =>
      if isNonWS c then parseBoard v a (acc ++ [c]) r else none)

/-- The lazy arch capture followed by `:` and the board. -/
def parseArch (v : Str) (acc : Str) : Str → Option FqbnRaw
  | [] => none
  | c :: r =>
    (if c = ':' then
        match r with
        | b0 :: r2 => if isNonWS b0 then parseBoard v acc [b0] r2 else none
        | [] => none
      else none).orElse (fun _ =>
      if isNonWS c then parseArch v (acc ++ [c]) r else none)

/-- The lazy vendor capture followed by `:` and the arch. -/
def parseVendor (acc : Str) : Str → Option FqbnRaw
  | [] => none
  | c :: r =>
    (if c = ':' then
        match r with
        | a0 :: r2 => if isNonWS a0 then parseArch acc [a0] r2 else none
        | [] => none
      else none).orElse (fun _ =>
      if isNonWS c then parseVendor (acc ++ [c]) r else none)

/-- `REGEX.captures(fqbn)` for the anchored FQBN regex. -/
def fqbnCaptures : Str → Option FqbnRaw
  | [] => none
  | c :: r => if isNonWS c then parseVendor [c] r else none

/-- `BoardInfo`: the params `HashMap` is modelled canonically as a key-sorted
association list (two hash maps are equal exactly when their canonical
forms are). -/
structure BoardInfo where
  vendor : Str
  arch : Str
  board : Str
  params : PrefMap
deriving DecidableEq

/-- `str::split(',')`: all comma-separated segments, empties included. -/
def splitOnComma : Str → List Str
  | [] => [[]]
  | c :: r =>
    if c = ',' then [] :: splitOnComma r
    else
      match splitOnComma r with
      | h :: t => (c :: h) :: t
      | [] => [[c]]

/-- One `k=v` pair read as the two `next()` calls on `pair.split('=')`:
key before the first `=`, value up to the second `=`; `none` models the
panic of the second `unwrap` when the pair has no `=`. -/
def pairKV (p : Str) : Option (Str × Str) :=
  match splitAtEq p with
  | none => none
  | some (k, rest) => some (k, rest.takeWhile (fun c => c ≠ '='))

/-- Outcome of `BoardInfo::from_fqbn`. -/
inductive FqbnOutcome where
  | ok : BoardInfo → FqbnOutcome
  | err : FqbnOutcome
  | panics : FqbnOutcome
deriving DecidableEq

/-- `BoardInfo::from_fqbn`: match the regex, then split group 4 on commas
and each pair at its `=`s; a pair without `=` panics; no regex match is the
`Invalid fully-qualified board name` error. -/
def from_fqbn (s : Str) : FqbnOutcome :=
  match fqbnCaptures s with
  | none => .err
  | some (v, a, b, none) => .ok ⟨v, a, b, []⟩
  | some (v, a, b, some t) =>
    let pairs := (splitOnComma t).map pairKV
    if pairs.all Option.isSome then
      .ok ⟨v, a, b,
        (pairs.filterMap id).foldl (fun acc kv => insertMap acc kv.1 kv.2) []⟩
    else .panics

/-- `,`-join of rendered `k=v` pairs. -/
def joinComma : List Str → Str
  | [] => []
  | [x] => x
  | x :: y :: t => x ++ ',' :: joinComma (y :: t)

/-- `Display for BoardInfo`: `vendor:arch:board`, then `:k1=v1,...` when
params are nonempty (the embedding renders params in canonical order, one of
the orders the `HashMap` iteration can produce). -/
def fqbnDisplay (b : BoardInfo) : Str :=
  b.vendor ++ ':' :: b.arch ++ ':' :: b.board ++
    (if b.params.isEmpty then []
    else ':' :: joinComma (b.params.map (fun kv => kv.1 ++ '=' :: kv.2)))

/-- C4 counterexample: the FQBN round-trip fails in general.  The input
`a:b:c:=:k=v` parses successfully (group 4 is `=:k=v`, giving the single
parameter with empty key and value `:k`), but rendering that `BoardInfo`
gives `a:b:c:=:k`, which re-parses with board `c:=:k` and no parameters —
a structurally different `BoardInfo`. -/
theorem fqbn_roundtrip_counterexample :
    from_fqbn "a:b:c:=:k=v".toList =
        .ok ⟨"a".toList, "b".toList, "c".toList, [([], ":k".toList)]⟩ ∧
      fqbnDisplay ⟨"a".toList, "b".toList, "c".toList, [([], ":k".toList)]⟩ =
        "a:b:c:=:k".toList ∧
      from_fqbn "a:b:c:=:k".toList =
        .ok ⟨"a".toList, "b".toList, "c:=:k".toList, []⟩ ∧
      (⟨"a".toList, "b".toList, "c:=:k".toList, []⟩ : BoardInfo) ≠
        ⟨"a".toList, "b".toList, "c".toList, [([], ":k".toList)]⟩ := by
  exact ⟨by decide, by decide, by decide, by decide⟩

/-- C4 amended: parsing `a:b:c:k1=v1,k2=v2` yields vendor `a`, arch `b`,
board `c` and params `{k1: v1, k2: v2}`, and for that `BoardInfo` rendering
and re-parsing returns the same structure; the round-trip does not extend to
every successfully parsed `BoardInfo` (see the counterexample). -/
theorem fqbn_example_parse_roundtrip :
    from_fqbn "a:b:c:k1=v1,k2=v2".toList =
        .ok ⟨"a".toList, "b".toList, "c".toList,
          [("k1".toList, "v1".toList), ("k2".toList, "v2".toList)]⟩ ∧
      fqbnDisplay ⟨"a".toList, "b".toList, "c".toList,
          [("k1".toList, "v1".toList), ("k2".toList, "v2".toList)]⟩ =
        "a:b:c:k1=v1,k2=v2".toList ∧
      from_fqbn (fqbnDisplay ⟨"a".toList, "b".toList, "c".toList,
          [("k1".toList, "v1".toList), ("k2".toList, "v2".toList)]⟩) =
        .ok ⟨"a".toList, "b".toList, "c".toList,
          [("k1".toList, "v1".toList), ("k2".toList, "v2".toList)]⟩ := by
  exact ⟨by decide, by decide, by decide⟩

/-- C5 counterexample: `from_fqbn` does not reject every input outside the
shape `vendor:arch:board[:k=v[,k=v]...]` — the four-segment input
`a:b:c:d`, whose last segment is not `k=v`, is accepted with the board
absorbing the extra segment; and `a:b:c:k=v,z` terminates abnormally (the
`unwrap` on the pair `z` panics) instead of returning the error. -/
theorem fqbn_reject_counterexample :
    from_fqbn "a:b:c:d".toList =
        .ok ⟨"a".toList, "b".toList, "c:d".toList, []⟩ ∧
      from_fqbn "a:b:c:k=v,z".toList = FqbnOutcome.panics := by
  exact ⟨by decide, by decide⟩

/-- C5 amended: `from_fqbn` returns the invalid-FQBN error exactly when the
anchored regex rejects the input (the whole input is then rejected); when the
regex matches, the result is either a parsed `BoardInfo` — possibly for
inputs outside the documented shape, the board absorbing `:`-separated
segments — or, when a comma-separated parameter lacks `=`, a panic. -/
theorem fqbn_error_iff_no_match :
    (∀ s : Str, from_fqbn s = FqbnOutcome.err ↔ fqbnCaptures s = none) ∧
      from_fqbn "a:b".toList = FqbnOutcome.err ∧
      from_fqbn "a b:c:d".toList = FqbnOutcome.err ∧
      from_fqbn [] = FqbnOutcome.err := by
  refine ⟨fun s => ?_, by decide, by decide, by decide⟩
  cases h : fqbnCaptures s with
  | none => simp [from_fqbn, h]
  | some raw =>
    obtain ⟨v, a, b, o⟩ := raw
    cases o with
    | none => simp [from_fqbn, h]
    | some t =>
      simp only [from_fqbn, h]
      split <;> simp

end Carguino
